import Mathlib

/-!
Verification development for the HTMLPlayer playback core: a shallow
embedding of the Track Navigator, the Media Resource Cache (audio blob
caching and blob-URL lifetime management) and the Playback Session
Controller, as implemented in `src/player.ts` and `src/storage.ts`,
together with theorems settling the specification claims about them.

Conventions of the embedding:
* JavaScript numbers used as sizes, timestamps and indices are `Nat`;
  playback positions (seconds, possibly fractional) are `Rat`.
* A JavaScript value of type `string | null` is `Option String`.
* IndexedDB object stores are association lists with unique keys;
  `db.put` removes any entry with the same key and appends the new one.
* `Math.floor(Math.random() * n)` draws are supplied as an ambient
  sequence `draws : Nat → Nat`, reduced modulo the list length.
* Asynchronous interleavings of the controller are traces of atomic
  events, one event per synchronously-executed segment between `await`
  suspension points.
-/

namespace HTMLPlayer

/-- A catalogue entry as used by the navigator (`interface Track` in
`player.ts`): only `id`, `url`, `title` are relevant. -/
structure Track where
  id : String
  url : String
  title : String
deriving Repr, DecidableEq

/-- Placeholder track used by `List.getD`; the embedding only reads it at
indices proved to be in bounds. -/
def defTrack : Track := ⟨"", "", ""⟩

/-! ## Track Navigator (`player.ts`, class TrackNavigator) -/

/-- Embeds `tracks.findIndex(t => t.url === currentTrackUrl)`: index of the first
track whose `url` equals the current track url, `-1` when absent (also when
`currentTrackUrl` is `null`, since `string === null` is false). -/
def findIndexJs (tracks : List Track) (current : Option String) : Int :=
  match tracks.findIdx? (fun t => current == some t.url) with
  | some i => (i : Int)
  | none => -1

/-- The loop guard of `getRandomTrack`: draw `k` stops the `do…while` loop
exactly when the drawn track's url differs from `excludeUrl`
(`randomTrack.url === excludeUrl` is false; with `excludeUrl` null it is
always false). -/
def stopsAt (tracks : List Track) (exclude : Option String) (draws : Nat → Nat)
    (k : Nat) : Prop :=
  ¬ exclude = some ((tracks.getD (draws k % tracks.length) defTrack).url)

instance (tracks : List Track) (exclude : Option String) (draws : Nat → Nat) :
    DecidablePred (stopsAt tracks exclude draws) := by
  intro k; unfold stopsAt; infer_instance

/-- Termination input for `getRandomTrack`: with at most one track the
source returns without looping; otherwise some draw must escape the
`do…while` loop (in the source, `Math.random` retries forever; the
embedding takes the draw sequence and this stopping evidence as input). -/
def RandomStops (tracks : List Track) (exclude : Option String)
    (draws : Nat → Nat) : Prop :=
  tracks.length ≤ 1 ∨ ∃ k, stopsAt tracks exclude draws k

/-- Embeds `TrackNavigator.getRandomTrack`: with at most one entry returns
`tracks[0]?.url || ''`; otherwise repeatedly draws a random index until the
drawn url differs from `excludeUrl`, and returns that url. -/
def getRandomTrack (tracks : List Track) (exclude : Option String)
    (draws : Nat → Nat) (h : RandomStops tracks exclude draws) : String :=
  if hle : tracks.length ≤ 1 then
    ((tracks.head?.map Track.url).getD "")
  else
    have hex : ∃ k, stopsAt tracks exclude draws k :=
      h.elim (fun h1 => absurd h1 hle) id
    (tracks.getD (draws (Nat.find hex) % tracks.length) defTrack).url

/-- Embeds `TrackNavigator.getNextTrack` (pure part, the catalogue supplied by
`loadTracks()` is a parameter): empty catalogue yields `null`; shuffle
mode delegates to `getRandomTrack`; otherwise the next index is `0` when
the current url is not found, else `(currentIndex + 1) % tracks.length`. -/
def getNextTrack (tracks : List Track) (current : Option String)
    (shuffle : Bool) (draws : Nat → Nat)
    (h : RandomStops tracks current draws) : Option String :=
  if tracks.length = 0 then none
  else if shuffle then some (getRandomTrack tracks current draws h)
  else
    let ci := findIndexJs tracks current
    let ni : Int := if ci = -1 then 0 else (ci + 1) % (tracks.length : Int)
    some ((tracks.getD ni.toNat defTrack).url)

/-- Embeds `TrackNavigator.getPreviousTrack`: empty catalogue yields `null`;
shuffle mode delegates to `getRandomTrack`; otherwise the previous index is
`tracks.length - 1` when the current url is not found, else
`(currentIndex - 1 + tracks.length) % tracks.length`. -/
def getPreviousTrack (tracks : List Track) (current : Option String)
    (shuffle : Bool) (draws : Nat → Nat)
    (h : RandomStops tracks current draws) : Option String :=
  if tracks.length = 0 then none
  else if shuffle then some (getRandomTrack tracks current draws h)
  else
    let ci := findIndexJs tracks current
    let pIdx : Int :=
      if ci = -1 then (tracks.length : Int) - 1
      else (ci - 1 + (tracks.length : Int)) % (tracks.length : Int)
    some ((tracks.getD pIdx.toNat defTrack).url)

/-! ## Settings (`storage.ts`, interface Settings / loadSettings) -/

/-- The settings fields consulted by the caching layer, as they come back
from `loadSettings()` (merged over `DEFAULT_SETTINGS`, so `cacheEnabled`
and `autoCleanup` are present booleans); `maxCacheSize` (in MB) may still
be absent. -/
structure Settings where
  cacheEnabled : Bool
  maxCacheSize : Option Nat
  autoCleanup : Bool
deriving Repr, DecidableEq

/-- The source's `DEFAULT_SETTINGS` (the caching-relevant fields):
caching on, 500 MB budget, auto cleanup on. -/
def DEFAULT_SETTINGS : Settings :=
  { cacheEnabled := true, maxCacheSize := some 500, autoCleanup := true }

/-- JavaScript `x || d` on an optional number: the default replaces both an
absent value and the falsy number `0`. -/
def jsOrNat (o : Option Nat) (d : Nat) : Nat :=
  match o with
  | none => d
  | some n => if n = 0 then d else n

/-- Embeds `(settings.maxCacheSize || 500) * 1024 * 1024`: the configured cache
budget in bytes. -/
def budgetBytes (s : Settings) : Nat :=
  jsOrNat s.maxCacheSize 500 * 1024 * 1024

/-! ## Persistent audio blob cache (`storage.ts`, store `audioblobs`) -/

/-- One record of the `audioblobs` object store: `db.put('audioblobs',
{ blob, timestamp, size }, url)`; the blob itself is abstracted to its
size, the key is the track url. -/
structure BlobEntry where
  key : String
  size : Nat
  timestamp : Nat
deriving Repr, DecidableEq

/-- The `audioblobs` store: association list with unique keys (list order
is immaterial, the store is keyed; eviction sorts by timestamp anyway). -/
abbrev BlobStore := List BlobEntry

/-- Embeds `db.put('audioblobs', …, url)`: overwrite any record under the same
key and store the new record. -/
def dbPut (store : BlobStore) (key : String) (size now : Nat) : BlobStore :=
  store.filter (fun e => ¬ e.key = key) ++ [⟨key, size, now⟩]

/-- Embeds `getAudioCacheSize`: sum of `entry?.size || 0` over all records. -/
def getAudioCacheSize (store : BlobStore) : Nat :=
  (store.map BlobEntry.size).sum

/-- Insert one entry into a timestamp-sorted list (ascending), keeping
earlier-listed entries first among equal timestamps. -/
def insertByTs (e : BlobEntry) : BlobStore → BlobStore
  | [] => [e]
  | f :: rest =>
    if e.timestamp < f.timestamp then e :: f :: rest else f :: insertByTs e rest

/-- Embeds `entries.sort((a, b) => (a.data?.timestamp || 0) - (b.data?.timestamp
|| 0))`: the cache records in oldest-first order. -/
def sortByTs : BlobStore → BlobStore
  | [] => []
  | e :: rest => insertByTs e (sortByTs rest)

/-- The eviction loop of `cleanupOldCache`: walk the oldest-first list,
and as long as the space freed so far is below `required`, delete the next
record and add its size to the freed total; return the surviving suffix. -/
def evictRemaining (freed required : Nat) : BlobStore → BlobStore
  | [] => []
  | e :: rest =>
    if required ≤ freed then e :: rest
    else evictRemaining (freed + e.size) required rest

/-- Embeds `cleanupOldCache(requiredSpace)`: sort all records oldest-first and
run the eviction loop; the store afterwards holds the surviving records. -/
def cleanupOldCache (requiredSpace : Nat) (store : BlobStore) : BlobStore :=
  evictRemaining 0 requiredSpace (sortByTs store)

/-- Embeds `cacheAudioBlob(url, blob)`: nothing happens when caching is disabled
(returns false); otherwise, when the current total plus the incoming size
exceeds the budget and `autoCleanup` is set, run `cleanupOldCache` for the
incoming size; then unconditionally `put` the record and return true. -/
def cacheAudioBlob (s : Settings) (store : BlobStore) (url : String)
    (size now : Nat) : Bool × BlobStore :=
  if ¬ s.cacheEnabled then (false, store)
  else
    let currentSize := getAudioCacheSize store
    let maxSize := budgetBytes s
    let store1 :=
      if currentSize + size > maxSize ∧ s.autoCleanup then
        cleanupOldCache size store
      else store
    (true, dbPut store1 url size now)

/-- Run a sequence of `cacheAudioBlob` operations `(url, size, now)` from
a starting store. -/
def runCacheOps (s : Settings) (start : BlobStore)
    (ops : List (String × Nat × Nat)) : BlobStore :=
  ops.foldl (fun st op => (cacheAudioBlob s st op.1 op.2.1 op.2.2).2) start

/-! ## Blob URL handle table (`storage.ts`, `blobUrls` map) -/

/-- One entry of the module-level `blobUrls` map: track url ↦
`{ url: blobUrl, lastUsed }`. -/
structure UrlEntry where
  track : String
  url : String
  lastUsed : Nat
deriving Repr, DecidableEq

/-- The in-memory handle table, unique `track` keys. -/
abbrev UrlTable := List UrlEntry

/-- The source's `BLOB_URL_CLEANUP_INTERVAL = 5 * 60 * 1000` milliseconds. -/
def BLOB_URL_CLEANUP_INTERVAL : Nat := 5 * 60 * 1000

/-- Embeds `revokeAudioBlobUrl(trackUrl)`: if the table has an entry for
`trackUrl`, revoke its object URL and delete the entry, both immediately;
the second component lists the object URLs revoked by the call. -/
def revokeAudioBlobUrl (table : UrlTable) (trackUrl : String) :
    UrlTable × List String :=
  match table.find? (fun e => e.track == trackUrl) with
  | some e => (table.filter (fun f => ¬ f.track = trackUrl), [e.url])
  | none => (table, [])

/-- The periodic sweep (`setInterval` at the bottom of `storage.ts`):
revoke and drop every entry with `now - entry.lastUsed >
BLOB_URL_CLEANUP_INTERVAL`. -/
def cleanupSweep (now : Nat) (table : UrlTable) : UrlTable :=
  table.filter (fun e => ¬ now - e.lastUsed > BLOB_URL_CLEANUP_INTERVAL)

/-! ## Resolving a playable handle (`storage.ts`, getAudioBlobUrl) -/

/-- Outcome of `fetch(trackUrl)` followed by `response.blob()`: either the
fetched blob (abstracted to its size) or a thrown error message (a non-ok
response throws `HTTP <status>`). -/
inductive FetchOutcome where
  | ok (size : Nat)
  | err (msg : String)
deriving Repr, DecidableEq

/-- Embeds `getAudioBlobUrl(trackUrl)`: return the memoised blob URL when the
handle table has one (touching `lastUsed`); otherwise obtain the blob —
from the persistent cache when enabled and present, else by fetching
(writing the fetched blob through `cacheAudioBlob` only on success when
caching is enabled) — then create an object URL (`newUrl`), record it in
the table and return it.  A failed fetch propagates as `.error` and
changes nothing. -/
def getAudioBlobUrl (s : Settings) (table : UrlTable) (store : BlobStore)
    (trackUrl : String) (fetched : FetchOutcome) (now : Nat)
    (newUrl : String) : Except String String × UrlTable × BlobStore :=
  match table.find? (fun e => e.track == trackUrl) with
  | some e =>
    (Except.ok e.url,
     table.map (fun f => if f.track = trackUrl then { f with lastUsed := now } else f),
     store)
  | none =>
    if s.cacheEnabled then
      match store.find? (fun b => b.key == trackUrl) with
      | some _ =>
        (Except.ok newUrl, table ++ [⟨trackUrl, newUrl, now⟩], store)
      | none =>
        match fetched with
        | .err m => (Except.error m, table, store)
        | .ok size =>
          let store1 := (cacheAudioBlob s store trackUrl size now).2
          (Except.ok newUrl, table ++ [⟨trackUrl, newUrl, now⟩], store1)
    else
      match fetched with
      | .err m => (Except.error m, table, store)
      | .ok _ => (Except.ok newUrl, table ++ [⟨trackUrl, newUrl, now⟩], store)

/-! ## Playback position store (`storage.ts`, store `playback`) -/

/-- One record of the `playback` object store:
`db.put('playback', { position, timestamp }, trackId)`. -/
structure PosEntry where
  key : String
  position : Rat
  timestamp : Nat
deriving Repr, DecidableEq

/-- The `playback` store: association list with unique keys. -/
abbrev PosStore := List PosEntry

/-- Embeds `db.put('playback', …, trackId)`. -/
def posPut (store : PosStore) (key : String) (pos : Rat) (now : Nat) :
    PosStore :=
  store.filter (fun e => ¬ e.key = key) ++ [⟨key, pos, now⟩]

/-- Embeds `db.get('playback', trackId)` as the stored position, when present. -/
def posGet (store : PosStore) (key : String) : Option Rat :=
  (store.find? (fun e => e.key == key)).map PosEntry.position

/-- Embeds `savePlaybackPosition(trackId, position)`: rejects (`false`, no write)
a falsy `trackId` (null or the empty string) or a negative position;
otherwise writes `{ position, timestamp }` under `trackId` and returns
`true`. -/
def savePlaybackPosition (store : PosStore) (trackId : Option String)
    (position : Rat) (now : Nat) : Bool × PosStore :=
  match trackId with
  | none => (false, store)
  | some k =>
    if k = "" then (false, store)
    else if position < 0 then (false, store)
    else (true, posPut store k position now)

/-- Embeds `loadPlaybackPosition(trackId)`: `null` for a falsy `trackId`;
otherwise `data?.position || null`, so a missing record and the falsy
stored position `0` both come back as `null`. -/
def loadPlaybackPosition (store : PosStore) (trackId : Option String) :
    Option Rat :=
  match trackId with
  | none => none
  | some k =>
    if k = "" then none
    else
      match posGet store k with
      | none => none
      | some p => if p = 0 then none else some p

/-! ## Session start (`player.ts`, loadNewTrack onload callback) -/

/-- Commands issued to the audio engine. -/
inductive EngineCmd where
  | seek (p : Rat)
  | play
deriving Repr, DecidableEq

/-- The engine commands the `onload` callback issues, in order: seek to
the saved position when `savedPosition !== null`, then `play()`. -/
def onloadCmds (saved : Option Rat) : List EngineCmd :=
  (match saved with
   | some p => [EngineCmd.seek p]
   | none => []) ++ [EngineCmd.play]

/-! ## Playback Session Controller (`player.ts`, class AudioPlayer)

The controller runs single-threaded and event-driven: each trace event is
one synchronously-executed segment between `await` suspension points of
`subscribeToStore` / `loadNewTrack` / `handleTrackEnd`. -/

/-- The controller fields relevant to track binding: `this.howl` (the
engine instance, identified by the track url it was built for),
`this.currentTrackUrl`, `this.isTransitioning`, the track the engine is
audibly playing (set by the `onload` callback's `play()`), and the
`setCurrentTrack` store writes the controller has emitted. -/
structure CtrlSt where
  howl : Option String
  currentTrackUrl : Option String
  isTransitioning : Bool
  playing : Option String
  emitted : List (Option String)
deriving Repr, DecidableEq

/-- Controller state before any selection. -/
def initCtrl : CtrlSt :=
  { howl := none, currentTrackUrl := none, isTransitioning := false,
    playing := none, emitted := [] }

/-- Atomic controller events.
* `select t`: the store-subscription callback runs with
  `state.currentTrack = t`, up to the suspension inside `loadNewTrack`
  at `await getAudioBlobUrl` (for `t = some _`), or to completion
  (for `t = none`).
* `complete t`: the in-flight load for `t` resolves successfully and the
  rest of `loadNewTrack` plus the `onload` callback run (construct the
  engine bound to `t`, set `currentTrackUrl`, clear `isTransitioning`,
  start playback of `t`).
* `fail t`: the in-flight load for `t` rejects; the `catch` of
  `loadNewTrack` runs.
* `ended next`: the engine's `onend` fired with repeat off and the
  navigator returned `next`; `handleTrackEnd` writes `setCurrentTrack`. -/
inductive CtrlEv where
  | select (t : Option String)
  | complete (t : String)
  | fail (t : String)
  | ended (next : Option String)
deriving Repr, DecidableEq

/-- One controller step per event, mirroring `subscribeToStore`
(lines 401–414), `cleanupCurrentTrack` (290–315), `loadNewTrack`
(317–381) and `handleTrackEnd` (383–399) of `player.ts`.  Note that
`complete t` overwrites `howl`/`currentTrackUrl` unconditionally: the
source keeps no generation counter, so a completion is applied whether or
not a newer selection has superseded it. -/
def ctrlStep (s : CtrlSt) : CtrlEv → CtrlSt
  | .select t =>
    if t = s.currentTrackUrl then s
    else
      match t with
      | some _ =>
        { s with howl := none, isTransitioning := true, playing := none }
      | none =>
        { s with howl := none, isTransitioning := false, playing := none,
                 currentTrackUrl := none }
  | .complete t =>
    { s with howl := some t, currentTrackUrl := some t,
             isTransitioning := false, playing := some t }
  | .fail _ =>
    { s with howl := none, currentTrackUrl := none,
             isTransitioning := false }
  | .ended next =>
    { s with emitted := s.emitted ++ [next] }

/-- The controller state after a trace of events. -/
def runCtrl (evs : List CtrlEv) : CtrlSt :=
  evs.foldl ctrlStep initCtrl

/-! ## Concrete fixtures used by witnesses and counterexamples -/

/-- Fixture track A. -/
def tA : Track := ⟨"1", "a", "A"⟩

/-- Fixture track B. -/
def tB : Track := ⟨"2", "b", "B"⟩

/-- Fixture track C. -/
def tC : Track := ⟨"3", "c", "C"⟩

/-- Constant draw sequence. -/
def d0 : Nat → Nat := fun _ => 0

/-- Identity draw sequence. -/
def dId : Nat → Nat := fun k => k

/-- Settings with a 10 MB cache budget (the minimum `saveSettings`
accepts), caching and auto cleanup enabled. -/
def smallCacheSettings : Settings :=
  { cacheEnabled := true, maxCacheSize := some 10, autoCleanup := true }

/-- The racing interleaving of two rapid selections: track `"a"` is
selected; while its `getAudioBlobUrl` is still in flight, `"b"` is
selected; `"b"`'s load resolves first, the superseded load of `"a"`
resolves last. -/
def staleTrace : List CtrlEv :=
  [CtrlEv.select (some "a"), CtrlEv.select (some "b"),
   CtrlEv.complete "b", CtrlEv.complete "a"]

/-- The loop of `getRandomTrack` terminates on `[A,B,C]` with current url
`"d"` under constant draws (the first draw already escapes). -/
theorem stopsD3 : RandomStops [tA, tB, tC] (some "d") d0 :=
  Or.inr ⟨0, by decide⟩

/-- Same, with current url `"b"`. -/
theorem stopsB3 : RandomStops [tA, tB, tC] (some "b") d0 :=
  Or.inr ⟨0, by decide⟩

/-- Same, with current url `"c"`. -/
theorem stopsC3 : RandomStops [tA, tB, tC] (some "c") d0 :=
  Or.inr ⟨0, by decide⟩

/-- Same, with current url `"a"` and identity draws (draw 1 escapes). -/
theorem stopsA3 : RandomStops [tA, tB, tC] (some "a") dId :=
  Or.inr ⟨1, by decide⟩

/-- On the two-track catalogue `[A,B]` with current url `"a"`, identity
draws escape the loop at draw 1. -/
theorem stopsA2 : RandomStops [tA, tB] (some "a") dId :=
  Or.inr ⟨1, by decide⟩

/-- Singleton catalogues never enter the loop. -/
theorem stops1A : RandomStops [tA] (some "a") d0 :=
  Or.inl (by decide)

/-- The empty catalogue never enters the loop. -/
theorem stopsNil : RandomStops ([] : List Track) none d0 :=
  Or.inl (by decide)

/-! ## Cast helpers for the navigator index arithmetic -/

/-- The `Int` next-index arithmetic agrees with `Nat` arithmetic. -/
theorem toNat_next_emod (i len : Nat) :
    (((i : Int) + 1) % (len : Int)).toNat = (i + 1) % len := by
  have h1 : ((i : Int) + 1) % (len : Int) = (((i + 1) % len : Nat) : Int) := by
    norm_cast
  rw [h1, Int.toNat_natCast]

/-- The `Int` previous-index arithmetic agrees with `Nat` arithmetic when the
catalogue is non-empty. -/
theorem toNat_prev_emod (i len : Nat) (hlen : len ≠ 0) :
    (((i : Int) - 1 + (len : Int)) % (len : Int)).toNat =
      (i + len - 1) % len := by
  have h1 : ((i : Int) - 1 + (len : Int)) % (len : Int) =
      (((i + len - 1) % len : Nat) : Int) := by
    rw [Int.ofNat_emod]
    congr 1
    have hle : 1 ≤ i + len := by omega
    rw [Nat.cast_sub hle]
    push_cast
    ring
  rw [h1, Int.toNat_natCast]

/-! ## Cache size bookkeeping lemmas -/

/-- Filtering a store can only shrink its total size. -/
theorem size_filter_le (p : BlobEntry → Bool) (l : BlobStore) :
    getAudioCacheSize (l.filter p) ≤ getAudioCacheSize l := by
  unfold getAudioCacheSize
  induction l with
  | nil => simp
  | cons e rest ih =>
    rw [List.filter_cons]
    by_cases hp : p e
    · simp only [hp, if_true, List.map_cons, List.sum_cons]
      omega
    · simp only [hp, if_false, List.map_cons, List.sum_cons, Bool.false_eq_true]
      omega

/-- Inserting into the timestamp-sorted order adds exactly the entry's
size. -/
theorem size_insertByTs (e : BlobEntry) (l : BlobStore) :
    getAudioCacheSize (insertByTs e l) = e.size + getAudioCacheSize l := by
  unfold getAudioCacheSize
  induction l with
  | nil => simp [insertByTs]
  | cons f rest ih =>
    rw [insertByTs]
    by_cases hc : e.timestamp < f.timestamp
    · simp [hc]
    · simp only [hc, if_false, List.map_cons, List.sum_cons, ih]
      omega

/-- Sorting by timestamp preserves the total size. -/
theorem size_sortByTs (l : BlobStore) :
    getAudioCacheSize (sortByTs l) = getAudioCacheSize l := by
  induction l with
  | nil => rfl
  | cons e rest ih =>
    rw [sortByTs, size_insertByTs, ih]
    simp [getAudioCacheSize]

/-- The eviction loop either empties the store or frees at least the
requested space (counting the space already freed). -/
theorem evictRemaining_spec (es : BlobStore) (f r : Nat) :
    evictRemaining f r es = [] ∨
    getAudioCacheSize (evictRemaining f r es) + r ≤
      getAudioCacheSize es + f := by
  induction es generalizing f with
  | nil => exact Or.inl rfl
  | cons e rest ih =>
    rw [evictRemaining]
    by_cases hc : r ≤ f
    · right
      rw [if_pos hc]
      omega
    · rw [if_neg hc]
      rcases ih (f + e.size) with h0 | h1
      · exact Or.inl h0
      · right
        have hsz : getAudioCacheSize (e :: rest) =
            e.size + getAudioCacheSize rest := by simp [getAudioCacheSize]
        omega

/-- When even the whole store cannot free the requested space, the
eviction loop deletes everything. -/
theorem evictRemaining_all (es : BlobStore) (f r : Nat)
    (h : getAudioCacheSize es + f < r) : evictRemaining f r es = [] := by
  induction es generalizing f with
  | nil => rfl
  | cons e rest ih =>
    rw [evictRemaining]
    have hsz : getAudioCacheSize (e :: rest) =
        e.size + getAudioCacheSize rest := by simp [getAudioCacheSize]
    have hc : ¬ r ≤ f := by omega
    rw [if_neg hc]
    exact ih (f + e.size) (by omega)

/-- A `db.put` adds at most the incoming size to the total. -/
theorem size_dbPut_le (store : BlobStore) (k : String) (sz now : Nat) :
    getAudioCacheSize (dbPut store k sz now) ≤ getAudioCacheSize store + sz := by
  unfold dbPut
  have h1 := size_filter_le (fun e => ¬ e.key = k) store
  have h2 : getAudioCacheSize (store.filter (fun e => ¬ e.key = k) ++
      ([⟨k, sz, now⟩] : BlobStore)) =
      getAudioCacheSize (store.filter (fun e => ¬ e.key = k)) + sz := by
    simp [getAudioCacheSize]
  omega

/-- One `cacheAudioBlob` call preserves the budget invariant, provided
auto cleanup is enabled and the incoming blob alone fits the budget. -/
theorem cacheAudioBlob_budget (s : Settings) (store : BlobStore)
    (url : String) (sz now : Nat)
    (hauto : s.autoCleanup = true)
    (hsz : sz ≤ budgetBytes s)
    (hstore : getAudioCacheSize store ≤ budgetBytes s) :
    getAudioCacheSize (cacheAudioBlob s store url sz now).2 ≤
      budgetBytes s := by
  unfold cacheAudioBlob
  by_cases hc : s.cacheEnabled
  · simp only [hc, not_true, if_false, Bool.true_eq_false, ite_not, if_true]
    by_cases hcond : getAudioCacheSize store + sz > budgetBytes s ∧
        s.autoCleanup = true
    · simp only [budgetBytes] at hcond
      rw [if_pos (by simpa [hauto] using hcond.1)]
      have hput := size_dbPut_le (cleanupOldCache sz store) url sz now
      unfold cleanupOldCache at hput ⊢
      rcases evictRemaining_spec (sortByTs store) 0 sz with h0 | h1
      · rw [h0] at hput ⊢
        have hz : getAudioCacheSize ([] : BlobStore) = 0 := rfl
        omega
      · rw [size_sortByTs] at h1
        omega
    · have hcond2 : ¬ getAudioCacheSize store + sz > budgetBytes s := by
        intro hgt
        exact hcond ⟨hgt, hauto⟩
      rw [if_neg (by simpa [budgetBytes, hauto] using hcond2)]
      have hput := size_dbPut_le store url sz now
      omega
  · simp only [hc, not_false_iff, if_true, Bool.false_eq_true]
    simpa using hstore

/-! ## Claim C1 -/

/-- C1 counterexample: select `"a"`, select `"b"` while `"a"`'s load is
still in flight, `"b"`'s load resolves, then the superseded load of `"a"`
resolves.  The stale completion is applied — it rebinds the engine and
`currentTrackUrl` to `"a"` and starts playback of `"a"` — so after all
pending callbacks settle it is NOT the last-selected track `"b"` that is
bound, contradicting the claim. -/
theorem c1_counterexample :
    (runCtrl staleTrace).howl = some "a" ∧
    (runCtrl staleTrace).currentTrackUrl = some "a" ∧
    (runCtrl staleTrace).playing = some "a" ∧
    ¬ (runCtrl staleTrace).howl = some "b" := by
  decide

/-- C1 amended: the controller keeps no generation counter, so a
superseded in-flight load's completion is applied like any other: after
any trace whose last settled callback is the completion of track `t`, the
engine instance, `currentTrackUrl` and the audibly playing track are those
of `t` — the last *completed* load wins, not the last *selected* track,
and a stale completion both mutates controller state and starts playback
of its (possibly superseded) track. -/
theorem c1_last_completion_wins (evs : List CtrlEv) (t : String) :
    (runCtrl (evs ++ [CtrlEv.complete t])).howl = some t ∧
    (runCtrl (evs ++ [CtrlEv.complete t])).currentTrackUrl = some t ∧
    (runCtrl (evs ++ [CtrlEv.complete t])).playing = some t := by
  unfold runCtrl
  rw [List.foldl_append]
  exact ⟨rfl, rfl, rfl⟩

/-! ## Claim C2 -/

/-- C2 counterexample: with the minimum 10 MB budget and an empty cache,
a single `cacheAudioBlob` of a 20 MiB blob leaves the cache holding
20971520 bytes, exceeding the 10485760-byte budget: `cleanupOldCache`
only frees space, it never refuses the insert, and the record is written
unconditionally. -/
theorem c2_counterexample :
    budgetBytes smallCacheSettings <
      getAudioCacheSize
        (runCacheOps smallCacheSettings [] [("u", 20971520, 0)]) := by
  decide

/-- C2 amended: the budget invariant holds only under two extra
conditions the claim omits: `autoCleanup` is enabled, and every incoming
blob alone fits within the budget.  Under those, for every sequence of
`cacheAudioBlob` calls starting from the empty cache, the total stored
size stays within the configured budget after every operation. -/
theorem c2_budget_invariant (s : Settings) (ops : List (String × Nat × Nat))
    (hauto : s.autoCleanup = true)
    (hsz : ∀ op ∈ ops, op.2.1 ≤ budgetBytes s) :
    getAudioCacheSize (runCacheOps s [] ops) ≤ budgetBytes s := by
  have main : ∀ (l : List (String × Nat × Nat)) (start : BlobStore),
      (∀ op ∈ l, op.2.1 ≤ budgetBytes s) →
      getAudioCacheSize start ≤ budgetBytes s →
      getAudioCacheSize (runCacheOps s start l) ≤ budgetBytes s := by
    intro l
    induction l with
    | nil =>
      intro start _ hst
      simpa [runCacheOps] using hst
    | cons op rest ih =>
      intro start hall hst
      have hstep := cacheAudioBlob_budget s start op.1 op.2.1 op.2.2 hauto
        (hall op (by simp)) hst
      have hrest : ∀ o ∈ rest, o.2.1 ≤ budgetBytes s :=
        fun o ho => hall o (by simp [ho])
      have hrun : runCacheOps s start (op :: rest) =
          runCacheOps s (cacheAudioBlob s start op.1 op.2.1 op.2.2).2 rest := by
        rfl
      rw [hrun]
      exact ih _ hrest hstep
  exact main ops [] hsz (by simp [getAudioCacheSize])

/-- C2 witness (for the amended claim): budget 10 MB, inserting 5 MiB
then 7 MiB (the second insert triggers eviction of the first) keeps the
total within 10485760 bytes. -/
theorem c2_witness :
    getAudioCacheSize (runCacheOps smallCacheSettings []
      [("a", 5242880, 0), ("b", 7340032, 1)]) ≤
      budgetBytes smallCacheSettings :=
  c2_budget_invariant smallCacheSettings
    [("a", 5242880, 0), ("b", 7340032, 1)] rfl (by decide)

/-! ## Claim C3 -/

/-- C3: on a full miss (no in-memory handle, no cached blob) whose fetch
fails, `getAudioBlobUrl` propagates the error to the caller and leaves
both the handle table and the persistent byte cache unchanged (bytes are
written only after a successful fetch); the controller's catch ends the
load with no engine bound, no current track, the transition flag cleared,
and emits no further track selection (no retry, no auto-advance). -/
theorem c3_fetch_failure (s : Settings) (table : UrlTable)
    (store : BlobStore) (trackUrl m : String) (now : Nat) (newUrl : String)
    (st : CtrlSt)
    (hmem : table.find? (fun e => e.track == trackUrl) = none)
    (hcached : store.find? (fun b => b.key == trackUrl) = none) :
    getAudioBlobUrl s table store trackUrl (FetchOutcome.err m) now newUrl =
      (Except.error m, table, store) ∧
    (ctrlStep st (CtrlEv.fail trackUrl)).howl = none ∧
    (ctrlStep st (CtrlEv.fail trackUrl)).currentTrackUrl = none ∧
    (ctrlStep st (CtrlEv.fail trackUrl)).isTransitioning = false ∧
    (ctrlStep st (CtrlEv.fail trackUrl)).emitted = st.emitted := by
  refine ⟨?_, rfl, rfl, rfl, rfl⟩
  unfold getAudioBlobUrl
  rw [hmem, hcached]
  by_cases hc : s.cacheEnabled <;> simp [hc]

/-- C3 witness: default settings, empty handle table and cache, fetch of
`"a"` fails with `HTTP 404`: the error propagates and nothing changes. -/
theorem c3_witness :
    getAudioBlobUrl DEFAULT_SETTINGS [] [] "a" (FetchOutcome.err "HTTP 404")
        0 "blob:a" = (Except.error "HTTP 404", [], []) ∧
    (ctrlStep initCtrl (CtrlEv.fail "a")).howl = none := by
  have h := c3_fetch_failure DEFAULT_SETTINGS [] [] "a" "HTTP 404" 0 "blob:a"
    initCtrl rfl rfl
  exact ⟨h.1, h.2.1⟩

/-! ## Claim C4 -/

/-- C4 counterexample: with the 10 MB budget and an empty cache, caching
a 20 MiB blob does NOT skip persisting: the record is written to the
persistent store (and the call reports success), contradicting the
claimed skip-when-oversized behaviour. -/
theorem c4_counterexample :
    (cacheAudioBlob smallCacheSettings [] "u" 20971520 0).2 =
      [⟨"u", 20971520, 0⟩] ∧
    (cacheAudioBlob smallCacheSettings [] "u" 20971520 0).1 = true ∧
    budgetBytes smallCacheSettings < 20971520 := by
  decide

/-- C4 amended: for an incoming payload alone exceeding the budget (auto
cleanup and caching enabled, cache currently within budget),
`cacheAudioBlob` evicts every existing entry and persists the oversized
record anyway, so the store afterwards holds exactly that record; the
resolve of a full miss with a successful fetch still returns a usable
handle — the request does not fail, but the entry IS persisted rather
than skipped. -/
theorem c4_oversized_persisted (s : Settings) (store : BlobStore)
    (url : String) (sz now : Nat) (table : UrlTable) (newUrl : String)
    (henb : s.cacheEnabled = true) (hauto : s.autoCleanup = true)
    (hover : budgetBytes s < sz)
    (hstore : getAudioCacheSize store ≤ budgetBytes s)
    (hmem : table.find? (fun e => e.track == url) = none)
    (hcached : store.find? (fun b => b.key == url) = none) :
    (cacheAudioBlob s store url sz now).2 = [⟨url, sz, now⟩] ∧
    (getAudioBlobUrl s table store url (FetchOutcome.ok sz) now newUrl).1 =
      Except.ok newUrl := by
  have hmain : (cacheAudioBlob s store url sz now).2 = [⟨url, sz, now⟩] := by
    have hcond : getAudioCacheSize store + sz > budgetBytes s := by omega
    unfold cacheAudioBlob
    simp only [henb, hauto, hcond, not_true, Bool.true_eq_false, if_false,
      and_self, if_true]
    unfold cleanupOldCache
    rw [evictRemaining_all (sortByTs store) 0 sz
      (by rw [size_sortByTs]; omega)]
    rfl
  refine ⟨hmain, ?_⟩
  unfold getAudioBlobUrl
  rw [hmem, hcached]
  simp [henb]

/-- C4 witness (for the amended claim): budget 10 MB, cache holding one
1 MiB entry, incoming 20 MiB blob for `"u"`: the old entry is evicted,
the oversized record is persisted, and resolving `"u"` with a successful
fetch returns the fresh handle. -/
theorem c4_witness :
    (cacheAudioBlob smallCacheSettings [⟨"old", 1048576, 0⟩] "u"
        20971520 5).2 = [⟨"u", 20971520, 5⟩] ∧
    (getAudioBlobUrl smallCacheSettings [] [⟨"old", 1048576, 0⟩] "u"
        (FetchOutcome.ok 20971520) 5 "blob:u").1 = Except.ok "blob:u" :=
  c4_oversized_persisted smallCacheSettings [⟨"old", 1048576, 0⟩] "u"
    20971520 5 [] "blob:u" rfl rfl (by decide) (by decide) rfl rfl

/-! ## Claim C5 -/

/-- C5: In non-shuffle mode, for every non-empty catalogue,
`getNextTrack` returns the track at index `(currentIndex + 1) % length`
(wrapping from the last track to the first), and when the current url is
not found in the catalogue (the source's index `-1`) it returns the first
track. -/
theorem c5_next_nonshuffle (tracks : List Track) (current : Option String)
    (draws : Nat → Nat) (h : RandomStops tracks current draws)
    (hne : tracks ≠ []) :
    (∀ i : Nat, tracks.findIdx? (fun t => current == some t.url) = some i →
      getNextTrack tracks current false draws h =
        some ((tracks.getD ((i + 1) % tracks.length) defTrack).url)) ∧
    (tracks.findIdx? (fun t => current == some t.url) = none →
      getNextTrack tracks current false draws h =
        some ((tracks.getD 0 defTrack).url)) := by
  have hlen : ¬ tracks.length = 0 := by
    simpa [List.length_eq_zero] using hne
  constructor
  · intro i hfind
    have hne1 : ¬ ((i : Int) = -1) := by omega
    simp only [getNextTrack, findIndexJs, hfind, hlen, if_false,
      Bool.false_eq_true, hne1, toNat_next_emod]
  · intro hfind
    simp only [getNextTrack, findIndexJs, hfind, hlen, if_false,
      Bool.false_eq_true, if_true, Int.toNat_zero]

/-- C5 witness: on `[A,B,C]` with current `"b"` (index 1) the next track
is the one at index `(1+1) % 3 = 2`, url `"c"`. -/
theorem c5_witness :
    getNextTrack [tA, tB, tC] (some "b") false d0 stopsB3 = some "c" := by
  have h := (c5_next_nonshuffle [tA, tB, tC] (some "b") d0 stopsB3
    (by decide)).1 1 (by decide)
  exact h.trans (by decide)

/-! ## Claim C6 -/

/-- C6 counterexample: on `[A,B,C]` with current url `"d"` not in the
catalogue, the claim's formula `(-1 - 1 + length) % length = (length - 2)
% length` predicts index `1`, url `"b"`, but the source's not-found branch
uses `tracks.length - 1` and `getPreviousTrack` returns the last track,
url `"c"`. -/
theorem c6_counterexample :
    getPreviousTrack [tA, tB, tC] (some "d") false d0 stopsD3 = some "c" ∧
    ¬ getPreviousTrack [tA, tB, tC] (some "d") false d0 stopsD3 =
        some (([tA, tB, tC].getD ((3 - 2) % 3) defTrack).url) := by
  constructor
  · decide
  · decide

/-- C6 amended: in non-shuffle mode, for every non-empty catalogue,
`getPreviousTrack` returns the track at index `(currentIndex - 1 + length)
% length`; a current url that is not found is treated as a dedicated
branch returning the LAST track, index `length - 1` (not `(length - 2) %
length` as the index `-1` reading of the spec formula would give). -/
theorem c6_prev_nonshuffle (tracks : List Track) (current : Option String)
    (draws : Nat → Nat) (h : RandomStops tracks current draws)
    (hne : tracks ≠ []) :
    (∀ i : Nat, tracks.findIdx? (fun t => current == some t.url) = some i →
      getPreviousTrack tracks current false draws h =
        some ((tracks.getD ((i + tracks.length - 1) % tracks.length)
          defTrack).url)) ∧
    (tracks.findIdx? (fun t => current == some t.url) = none →
      getPreviousTrack tracks current false draws h =
        some ((tracks.getD (tracks.length - 1) defTrack).url)) := by
  have hlen : ¬ tracks.length = 0 := by
    simpa [List.length_eq_zero] using hne
  constructor
  · intro i hfind
    have hne1 : ¬ ((i : Int) = -1) := by omega
    simp only [getPreviousTrack, findIndexJs, hfind, hlen, if_false,
      Bool.false_eq_true, hne1, toNat_prev_emod i tracks.length hlen]
  · intro hfind
    have htn : ((tracks.length : Int) - 1).toNat = tracks.length - 1 := by
      omega
    simp only [getPreviousTrack, findIndexJs, hfind, hlen, if_false,
      Bool.false_eq_true, if_true, htn]

/-- C6 witness (for the amended claim): on `[A,B,C]` with current `"a"`
(index 0) the previous track is the one at index `(0 + 3 - 1) % 3 = 2`,
url `"c"`. -/
theorem c6_witness :
    getPreviousTrack [tA, tB, tC] (some "a") false dId stopsA3 = some "c" := by
  have h := (c6_prev_nonshuffle [tA, tB, tC] (some "a") dId stopsA3
    (by decide)).1 0 (by decide)
  exact h.trans (by decide)

/-! ## Claim C7 -/

/-- C7: In shuffle mode, `getNextTrack`/`getPreviousTrack` return `none`
exactly when the catalogue is empty; a single-entry catalogue yields that
entry's url (the function is total, it never fails); and on a catalogue
with more than one entry the returned url always differs from the current
one. -/
theorem c7_shuffle (tracks : List Track) (current : Option String)
    (draws : Nat → Nat) (h : RandomStops tracks current draws) :
    (getNextTrack tracks current true draws h = none ↔ tracks = []) ∧
    (getPreviousTrack tracks current true draws h = none ↔ tracks = []) ∧
    (∀ t : Track, tracks = [t] →
      getNextTrack tracks current true draws h = some t.url) ∧
    (1 < tracks.length → ∀ u : String,
      getNextTrack tracks current true draws h = some u →
        ¬ current = some u) := by
  refine ⟨?_, ?_, ?_, ?_⟩
  · by_cases hz : tracks.length = 0
    · have he : tracks = [] := List.length_eq_zero.mp hz
      subst he
      simp [getNextTrack]
    · have hne : ¬ tracks = [] := fun he => hz (by simp [he])
      simp [getNextTrack, hz, hne]
  · by_cases hz : tracks.length = 0
    · have he : tracks = [] := List.length_eq_zero.mp hz
      subst he
      simp [getPreviousTrack]
    · have hne : ¬ tracks = [] := fun he => hz (by simp [he])
      simp [getPreviousTrack, hz, hne]
  · intro t ht
    subst ht
    simp [getNextTrack, getRandomTrack]
  · intro hlt u hu
    have hz : ¬ tracks.length = 0 := by omega
    have hle : ¬ tracks.length ≤ 1 := by omega
    rw [getNextTrack, if_neg hz, if_pos rfl] at hu
    rw [getRandomTrack, dif_neg hle] at hu
    have hex : ∃ k, stopsAt tracks current draws k :=
      Or.elim h (fun h1 => absurd h1 hle) id
    have hspec := Nat.find_spec hex
    rw [Option.some_inj] at hu
    rw [← hu]
    exact hspec

/-- C7 witness: on the singleton catalogue `[A]` with current `"a"`,
shuffle-mode next returns `A`'s url. -/
theorem c7_witness :
    getNextTrack [tA] (some "a") true d0 stops1A = some "a" := by
  have h := (c7_shuffle [tA] (some "a") d0 stops1A).2.2.1 tA rfl
  exact h.trans (by decide)

/-! ## Claim C8 -/

/-- C8 counterexample: a handle whose `lastUsed` is the current instant
(no idle time at all, and no usage count exists anywhere in the source)
is revoked by the very `revokeAudioBlobUrl` call: the table entry is
deleted and its object URL revoked immediately, contradicting "release
never revokes a handle immediately upon the release call". -/
theorem c8_counterexample :
    revokeAudioBlobUrl [⟨"t", "blob:t", 100⟩] "t" = ([], ["blob:t"]) := by
  decide

/-- C8 amended: `revokeAudioBlobUrl` keeps no usage count and no grace
window: whenever the table holds a handle for the track, the call revokes
its object URL and removes the entry immediately (afterwards no handle
for the track remains).  The only idle-based revocation is the periodic
sweep, which keeps exactly the handles idle for at most the 5-minute
cleanup interval. -/
theorem c8_revocation (table : UrlTable) (trackUrl : String) (e : UrlEntry)
    (now : Nat)
    (hfind : table.find? (fun f => f.track == trackUrl) = some e) :
    (revokeAudioBlobUrl table trackUrl).2 = [e.url] ∧
    ((revokeAudioBlobUrl table trackUrl).1.find?
      (fun f => f.track == trackUrl)) = none ∧
    (∀ f : UrlEntry, f ∈ cleanupSweep now table ↔
      f ∈ table ∧ now - f.lastUsed ≤ BLOB_URL_CLEANUP_INTERVAL) := by
  refine ⟨?_, ?_, ?_⟩
  · unfold revokeAudioBlobUrl
    rw [hfind]
  · unfold revokeAudioBlobUrl
    rw [hfind]
    rw [List.find?_eq_none]
    intro x hx
    have hmem := List.mem_filter.mp hx
    have hne : ¬ x.track = trackUrl := by simpa using hmem.2
    simpa using hne
  · intro f
    simp [cleanupSweep, List.mem_filter, not_lt]

/-- C8 witness (for the amended claim): the singleton table holding a
fresh handle for `"t"`: release revokes `blob:t` at once and leaves no
handle behind; the sweep at time 100 keeps the handle (idle 0 ms). -/
theorem c8_witness :
    (revokeAudioBlobUrl [⟨"t", "blob:t", 100⟩] "t").2 = ["blob:t"] ∧
    ((revokeAudioBlobUrl [⟨"t", "blob:t", 100⟩] "t").1.find?
      (fun f => f.track == "t")) = none ∧
    ((⟨"t", "blob:t", 100⟩ : UrlEntry) ∈
      cleanupSweep 100 [⟨"t", "blob:t", 100⟩]) := by
  have h := c8_revocation [⟨"t", "blob:t", 100⟩] "t" ⟨"t", "blob:t", 100⟩
    100 rfl
  exact ⟨h.1, h.2.1, (h.2.2 ⟨"t", "blob:t", 100⟩).mpr ⟨by simp, by decide⟩⟩

/-! ## Positions: lookup after write -/

/-- Reading back the key just written returns the written position. -/
theorem posGet_posPut_self (store : PosStore) (k : String) (pos : Rat)
    (now : Nat) : posGet (posPut store k pos now) k = some pos := by
  unfold posGet posPut
  have hall : ∀ l : PosStore, (∀ e ∈ l, (e.key == k) = false) →
      (l ++ [⟨k, pos, now⟩] : PosStore).find? (fun e => e.key == k) =
        some ⟨k, pos, now⟩ := by
    intro l hl
    induction l with
    | nil => simp [List.find?]
    | cons e rest ih =>
      have he := hl e (by simp)
      rw [List.cons_append, List.find?_cons, he]
      exact ih (fun f hf => hl f (by simp [hf]))
  have hfilt : ∀ e ∈ store.filter (fun f => ¬ f.key = k),
      (e.key == k) = false := by
    intro e he
    have hne := (List.mem_filter.mp he).2
    simpa using hne
  rw [hall _ hfilt]
  rfl

/-! ## Claim C9 -/

/-- C9: for every non-empty track key, saving position `42` and then
starting a session for that key loads `42` back, and the session-start
(`onload`) command sequence seeks to `42` strictly before issuing
`play`. -/
theorem c9_roundtrip (store : PosStore) (trackKey : String) (now : Nat)
    (hk : ¬ trackKey = "") :
    (savePlaybackPosition store (some trackKey) 42 now).1 = true ∧
    loadPlaybackPosition
      (savePlaybackPosition store (some trackKey) 42 now).2
      (some trackKey) = some 42 ∧
    onloadCmds (loadPlaybackPosition
      (savePlaybackPosition store (some trackKey) 42 now).2
      (some trackKey)) = [EngineCmd.seek 42, EngineCmd.play] := by
  have hneg : ¬ (42 : Rat) < 0 := by norm_num
  have hsave : savePlaybackPosition store (some trackKey) 42 now =
      (true, posPut store trackKey 42 now) := by
    simp [savePlaybackPosition, hk, hneg]
  have hload : loadPlaybackPosition
      (savePlaybackPosition store (some trackKey) 42 now).2
      (some trackKey) = some 42 := by
    rw [hsave]
    simp [loadPlaybackPosition, hk, posGet_posPut_self]
  refine ⟨by rw [hsave], hload, ?_⟩
  rw [hload]
  rfl

/-- C9 witness: key `"a"`, empty store. -/
theorem c9_witness :
    loadPlaybackPosition
      (savePlaybackPosition [] (some "a") 42 0).2 (some "a") = some 42 := by
  exact (c9_roundtrip [] "a" 0 (by decide)).2.1

/-! ## Claim C10 -/

/-- C10: saving position `0` succeeds, but `loadPlaybackPosition`
coalesces the stored falsy `0` to `none` (`data?.position || null`), so
session start issues no seek for a track saved at offset `0`; the
round-trip holds exactly for strictly positive offsets. -/
theorem c10_zero_coalesced (store : PosStore) (trackKey : String)
    (now : Nat) (hk : ¬ trackKey = "") :
    (savePlaybackPosition store (some trackKey) 0 now).1 = true ∧
    loadPlaybackPosition
      (savePlaybackPosition store (some trackKey) 0 now).2
      (some trackKey) = none ∧
    onloadCmds (loadPlaybackPosition
      (savePlaybackPosition store (some trackKey) 0 now).2
      (some trackKey)) = [EngineCmd.play] ∧
    (∀ p : Rat, 0 < p →
      loadPlaybackPosition
        (savePlaybackPosition store (some trackKey) p now).2
        (some trackKey) = some p) := by
  have hneg : ¬ (0 : Rat) < 0 := by norm_num
  have hsave : savePlaybackPosition store (some trackKey) 0 now =
      (true, posPut store trackKey 0 now) := by
    simp [savePlaybackPosition, hk, hneg]
  have hload : loadPlaybackPosition
      (savePlaybackPosition store (some trackKey) 0 now).2
      (some trackKey) = none := by
    rw [hsave]
    simp [loadPlaybackPosition, hk, posGet_posPut_self]
  refine ⟨by rw [hsave], hload, by rw [hload]; rfl, ?_⟩
  intro p hp
  have hnegp : ¬ p < 0 := not_lt.mpr (le_of_lt hp)
  have hsavep : savePlaybackPosition store (some trackKey) p now =
      (true, posPut store trackKey p now) := by
    simp [savePlaybackPosition, hk, hnegp]
  rw [hsavep]
  simp [loadPlaybackPosition, hk, posGet_posPut_self, ne_of_gt hp]

/-- C10 witness: key `"a"`, empty store: saving `0` succeeds, loading
gives `none`, session start issues only `play`; saving `7/2` loads back
`7/2`. -/
theorem c10_witness :
    (savePlaybackPosition [] (some "a") 0 0).1 = true ∧
    loadPlaybackPosition (savePlaybackPosition [] (some "a") 0 0).2
      (some "a") = none ∧
    loadPlaybackPosition (savePlaybackPosition [] (some "a") (7/2) 0).2
      (some "a") = some (7/2) := by
  have h := c10_zero_coalesced [] "a" 0 (by decide)
  exact ⟨h.1, h.2.1, h.2.2.2 (7/2) (by norm_num)⟩

end HTMLPlayer

